import Mathlib

/-!
# iohelper: `SafeWrite` / `SafeRead`

A shallow embedding of `safeio.go`.  A file is a list of bytes, the file system is a
map from paths to entries, and the two library routines the Go code calls
on the payload (`crypto/sha256` and `encoding/base64.RawURLEncoding`) are written out as
executable functions so that every statement below can be evaluated on concrete input.
-/

namespace Iohelper

/-! ## Bytes -/

/-- One octet. -/
abbrev Byte := Fin 256

/-- A Go `[]byte` (and a Go `string`, which is a byte sequence as well). -/
abbrev Bytes := List Byte

/-- The octet with the given code (reduced modulo 256). -/
def byte (n : Nat) : Byte := Fin.ofNat n

/-! ## `crypto/sha256`  (FIPS 180-4, words are naturals below `2^32`) -/

namespace Sha256

/-- Reduction to a 32-bit word. -/
def w32 (x : Nat) : Nat := x % 4294967296

/-- Rotate a 32-bit word right by `n` places. -/
def rotr (x n : Nat) : Nat := w32 ((x >>> n) ||| (x <<< (32 - n)))

def ch (x y z : Nat) : Nat := (x &&& y) ^^^ ((4294967295 - x) &&& z)

def maj (x y z : Nat) : Nat := (x &&& y) ^^^ (x &&& z) ^^^ (y &&& z)

def bigSigma0 (x : Nat) : Nat := rotr x 2 ^^^ rotr x 13 ^^^ rotr x 22

def bigSigma1 (x : Nat) : Nat := rotr x 6 ^^^ rotr x 11 ^^^ rotr x 25

def smallSigma0 (x : Nat) : Nat := rotr x 7 ^^^ rotr x 18 ^^^ (x >>> 3)

def smallSigma1 (x : Nat) : Nat := rotr x 17 ^^^ rotr x 19 ^^^ (x >>> 10)

/-- The 64 round constants. -/
def K : List Nat :=
  [0x428a2f98, 0x71374491, 0xb5c0fbcf, 0xe9b5dba5, 0x3956c25b, 0x59f111f1, 0x923f82a4, 0xab1c5ed5,
   0xd807aa98, 0x12835b01, 0x243185be, 0x550c7dc3, 0x72be5d74, 0x80deb1fe, 0x9bdc06a7, 0xc19bf174,
   0xe49b69c1, 0xefbe4786, 0x0fc19dc6, 0x240ca1cc, 0x2de92c6f, 0x4a7484aa, 0x5cb0a9dc, 0x76f988da,
   0x983e5152, 0xa831c66d, 0xb00327c8, 0xbf597fc7, 0xc6e00bf3, 0xd5a79147, 0x06ca6351, 0x14292967,
   0x27b70a85, 0x2e1b2138, 0x4d2c6dfc, 0x53380d13, 0x650a7354, 0x766a0abb, 0x81c2c92e, 0x92722c85,
   0xa2bfe8a1, 0xa81a664b, 0xc24b8b70, 0xc76c51a3, 0xd192e819, 0xd6990624, 0xf40e3585, 0x106aa070,
   0x19a4c116, 0x1e376c08, 0x2748774c, 0x34b0bcb5, 0x391c0cb3, 0x4ed8aa4a, 0x5b9cca4f, 0x682e6ff3,
   0x748f82ee, 0x78a5636f, 0x84c87814, 0x8cc70208, 0x90befffa, 0xa4506ceb, 0xbef9a3f7, 0xc67178f2]

/-- The eight working variables `a .. h`, also the chaining value. -/
structure State where
  a : Nat
  b : Nat
  c : Nat
  d : Nat
  e : Nat
  f : Nat
  g : Nat
  h : Nat

/-- The initial chaining value. -/
def init : State :=
  ⟨0x6a09e667, 0xbb67ae85, 0x3c6ef372, 0xa54ff53a, 0x510e527f, 0x9b05688c, 0x1f83d9ab, 0x5be0cd19⟩

/-- Big-endian octets of a 32-bit word. -/
def be32 (x : Nat) : Bytes :=
  [byte (x >>> 24), byte (x >>> 16), byte (x >>> 8), byte x]

/-- Big-endian octets of a 64-bit word. -/
def be64 (x : Nat) : Bytes :=
  [byte (x >>> 56), byte (x >>> 48), byte (x >>> 40), byte (x >>> 32),
   byte (x >>> 24), byte (x >>> 16), byte (x >>> 8), byte x]

/-- The message followed by the bit `1`, zero bits and the 64-bit message length in bits,
filling a whole number of 64-byte blocks. -/
def pad (m : Bytes) : Bytes :=
  m ++ byte 128 :: List.replicate ((119 - m.length % 64) % 64) (byte 0) ++ be64 (8 * m.length)

/-- The big-endian 32-bit words of a byte sequence (a trailing partial word is zero-filled). -/
def words : Nat → Bytes → List Nat
  | 0, _ => []
  | n + 1, bs =>
    ((bs.getD 0 0).val * 16777216 + (bs.getD 1 0).val * 65536 + (bs.getD 2 0).val * 256
        + (bs.getD 3 0).val) :: words n (bs.drop 4)

/-- Extend a message schedule by `n` more words. -/
def schedule : Nat → List Nat → List Nat
  | 0, w => w
  | n + 1, w =>
    let t := w.length
    schedule n (w ++ [w32 (smallSigma1 (w.getD (t - 2) 0) + w.getD (t - 7) 0
      + smallSigma0 (w.getD (t - 15) 0) + w.getD (t - 16) 0)])

/-- One round of the compression function with round constant `k` and schedule word `w`. -/
def round (s : State) (k w : Nat) : State :=
  let t1 := s.h + bigSigma1 s.e + ch s.e s.f s.g + k + w
  let t2 := bigSigma0 s.a + maj s.a s.b s.c
  ⟨w32 (t1 + t2), s.a, s.b, s.c, w32 (s.d + t1), s.e, s.f, s.g⟩

/-- All rounds over paired round constants and schedule words. -/
def rounds : State → List Nat → List Nat → State
  | s, k :: ks, w :: ws => rounds (round s k w) ks ws
  | s, _, _ => s

/-- Compress one 64-byte block into the chaining value. -/
def compress (hv : State) (block : Bytes) : State :=
  let s := rounds hv K (schedule 48 (words 16 block))
  ⟨w32 (hv.a + s.a), w32 (hv.b + s.b), w32 (hv.c + s.c), w32 (hv.d + s.d),
   w32 (hv.e + s.e), w32 (hv.f + s.f), w32 (hv.g + s.g), w32 (hv.h + s.h)⟩

/-- Compress the first `n` 64-byte blocks of `bs`. -/
def blocks : Nat → State → Bytes → State
  | 0, hv, _ => hv
  | n + 1, hv, bs => blocks n (compress hv (bs.take 64)) (bs.drop 64)

/-- The digest: `hasher := sha256.New(); hasher.Write(m); hasher.Sum(nil)`. -/
def sum (m : Bytes) : Bytes :=
  let p := pad m
  let s := blocks (p.length / 64) init p
  be32 s.a ++ be32 s.b ++ be32 s.c ++ be32 s.d ++ be32 s.e ++ be32 s.f ++ be32 s.g ++ be32 s.h

end Sha256

/-! ## `encoding/base64`, `RawURLEncoding` -/

namespace Base64

/-- The URL-safe alphabet `A-Z a-z 0-9 - _`. -/
def encodeURL : List Nat :=
  [65, 66, 67, 68, 69, 70, 71, 72, 73, 74, 75, 76, 77, 78, 79, 80, 81, 82, 83, 84, 85, 86, 87, 88,
   89, 90, 97, 98, 99, 100, 101, 102, 103, 104, 105, 106, 107, 108, 109, 110, 111, 112, 113, 114,
   115, 116, 117, 118, 119, 120, 121, 122, 48, 49, 50, 51, 52, 53, 54, 55, 56, 57, 45, 95]

/-- The character for a 6-bit value. -/
def digit (v : Nat) : Byte := byte (encodeURL.getD (v % 64) 0)

/-- Three octets give four characters; a remainder of one or two octets gives two or
three characters and no padding (`RawURLEncoding.EncodeToString`). -/
def EncodeToString : Bytes → Bytes
  | a :: b :: c :: rest =>
    let v := a.val * 65536 + b.val * 256 + c.val
    digit (v >>> 18) :: digit (v >>> 12) :: digit (v >>> 6) :: digit v :: EncodeToString rest
  | [a, b] =>
    let v := a.val * 65536 + b.val * 256
    [digit (v >>> 18), digit (v >>> 12), digit (v >>> 6)]
  | [a] =>
    let v := a.val * 65536
    [digit (v >>> 18), digit (v >>> 12)]
  | [] => []

end Base64

/-! ## Errors -/

/-- File names. -/
abbrev Path := String

/-- A Go `error` value: either one made by `fmt.Errorf` (known by its message) or one
reported by the operating system for a path (`*os.PathError`, `*os.LinkError`). -/
inductive Error
  | errorf (msg : String)
  | sys (path : Path) (errno : Nat)
  deriving DecidableEq, Repr

/-- "No such file or directory". -/
def ENOENT : Nat := 2

/-- "Bad file descriptor". -/
def EBADF : Nat := 9

/-! ## The file system

A path names nothing, a regular file that can be read, or something `ioutil.ReadFile`
cannot read (no permission, a directory, ...).  Paths are independent of one another:
no links.  Reading is a function of this state alone. -/

/-- What a path names. -/
inductive Entry
  | file (content : Bytes)
  | unreadable (errno : Nat)
  deriving DecidableEq, Repr

/-- The file system: what every path names, if anything. -/
abbrev FS := Path → Option Entry

/-- An injected failure of one system call: the error number, and for a write the number
of bytes that reached the file before it failed. -/
structure Fault where
  errno : Nat
  written : Nat
  deriving DecidableEq, Repr

/-- The system calls `SafeWrite` issues. -/
inductive Call
  | create (name : Path)
  | write (name : Path)
  | close (name : Path)
  | remove (name : Path)
  | rename (oldpath newpath : Path)
  deriving DecidableEq, Repr

/-- A system call that has been made, its error if it failed, and the file system it
left behind. -/
structure Event where
  call : Call
  err : Option Error
  after : FS

/-- The world a mutating call runs in: the file system, the outcomes the environment
will impose on the coming system calls (`none`, or nothing left: no interference), and the
record of the calls made so far, oldest first. -/
structure World where
  files : FS
  faults : List (Option Fault)
  log : List Event

/-- The interference with the next system call. -/
def World.fault (w : World) : Option Fault := w.faults.headD none

/-- The world after one system call. -/
def World.step (w : World) (call : Call) (err : Option Error) (files : FS) : World :=
  { files := files, faults := w.faults.tail, log := w.log ++ [⟨call, err, files⟩] }

/-- The file systems a run from `w` to `w1` passed through, one per system call: the states
a crash during the run can leave behind (a write cut short is the state an interrupted
write leaves). -/
def statesSince (w w1 : World) : List FS := (w1.log.drop w.log.length).map Event.after

/-- The calls a run from `w` to `w1` made, in order. -/
def callsSince (w w1 : World) : List Call := (w1.log.drop w.log.length).map Event.call

/-- `os.Create`: opens for reading and writing, creating or truncating.  A failure leaves
the file system as it was.  The handle returned is modelled by the path. -/
def osCreate (name : Path) (w : World) : Except Error Path × World :=
  match w.fault with
  | some flt =>
    let err := Error.sys name flt.errno
    (.error err, w.step (.create name) (some err) w.files)
  | none =>
    match w.files name with
    | some (.unreadable errno) =>
      let err := Error.sys name errno
      (.error err, w.step (.create name) (some err) w.files)
    | _ => (.ok name, w.step (.create name) none (Function.update w.files name (some (.file []))))

/-- `(*os.File).Write` and `(*os.File).WriteString`: appends at the end of the file written
so far.  A failed write may have appended any leading part of the bytes. -/
def fileWrite (f : Path) (b : Bytes) (w : World) : Option Error × World :=
  match w.files f with
  | some (.file content) =>
    match w.fault with
    | some flt =>
      let err := Error.sys f flt.errno
      (some err, w.step (.write f) (some err)
        (Function.update w.files f (some (.file (content ++ b.take flt.written)))))
    | none =>
      (none, w.step (.write f) none (Function.update w.files f (some (.file (content ++ b)))))
  | _ =>
    let err := Error.sys f EBADF
    (some err, w.step (.write f) (some err) w.files)

/-- `(*os.File).Close`: no effect on any file content. -/
def fileClose (f : Path) (w : World) : Option Error × World :=
  match w.fault with
  | some flt =>
    let err := Error.sys f flt.errno
    (some err, w.step (.close f) (some err) w.files)
  | none => (none, w.step (.close f) none w.files)

/-- `os.Remove`: fails on a missing path; a failure leaves the file system as it was. -/
def osRemove (name : Path) (w : World) : Option Error × World :=
  match w.fault with
  | some flt =>
    let err := Error.sys name flt.errno
    (some err, w.step (.remove name) (some err) w.files)
  | none =>
    match w.files name with
    | none =>
      let err := Error.sys name ENOENT
      (some err, w.step (.remove name) (some err) w.files)
    | some _ => (none, w.step (.remove name) none (Function.update w.files name none))

/-- `os.Rename`: the entry moves to `newpath`, replacing what was there; fails on a missing
`oldpath`; a failure leaves the file system as it was. -/
def osRename (oldpath newpath : Path) (w : World) : Option Error × World :=
  match w.fault with
  | some flt =>
    let err := Error.sys oldpath flt.errno
    (some err, w.step (.rename oldpath newpath) (some err) w.files)
  | none =>
    match w.files oldpath with
    | none =>
      let err := Error.sys oldpath ENOENT
      (some err, w.step (.rename oldpath newpath) (some err) w.files)
    | some e =>
      (none, w.step (.rename oldpath newpath) none
        (Function.update (Function.update w.files oldpath none) newpath (some e)))

/-- `ioutil.ReadFile`. -/
def ReadFile (fs : FS) (filename : Path) : Except Error Bytes :=
  match fs filename with
  | none => .error (.sys filename ENOENT)
  | some (.unreadable errno) => .error (.sys filename errno)
  | some (.file content) => .ok content

/-- `strings.HasPrefix`. -/
def HasPrefix (s pre : Bytes) : Bool :=
  decide (s.length ≥ pre.length) && decide (s.take pre.length = pre)

/-- `strings.HasSuffix`. -/
def HasSuffix (s suf : Bytes) : Bool :=
  decide (s.length ≥ suf.length) && decide (s.drop (s.length - suf.length) = suf)

/-! ## `safeio.go` -/

/-- The string `"DataHash:"`. -/
def dataHashMarker : Bytes := [68, 97, 116, 97, 72, 97, 115, 104, 58]

/-- The string `";"`. -/
def semicolon : Bytes := [59]

/-- `SafeWrite` writes the given data and hash to `file`, using `backupFile` as temporary
storage.  Returns the error (`none` for `nil`) and the world it leaves. -/
def SafeWrite (data : Bytes) (file backupFile : Path) (w : World) : Option Error × World :=
  match osCreate backupFile w with
  | (.error err, w) => (some err, w)
  | (.ok f, w) =>
    let hash := Sha256.sum data
    match fileWrite f (dataHashMarker ++ Base64.EncodeToString hash ++ semicolon) w with
    | (some err, w) => (some err, (fileClose f w).2)
    | (none, w) =>
      match fileWrite f data w with
      | (some err, w) => (some err, (fileClose f w).2)
      | (none, w) =>
        let w := (fileClose f w).2
        let w := (osRemove file w).2
        match osRename backupFile file w with
        | (some err, w) => (some err, w)
        | (none, w) => (none, w)

/-- The closure `read` of `SafeRead`: reads a file and validates its hash header. -/
def read (fs : FS) (file : Path) : Except Error Bytes :=
  match ReadFile fs file with
  | .error err => .error err
  | .ok data =>
    if data.length < 53 then .error (.errorf "Input file is too short") else
    let pfx := data.take 53
    if !HasPrefix pfx dataHashMarker then
      .error (.errorf "Input file does not contain DataHash: prefix")
    else if !HasSuffix pfx semicolon then
      .error (.errorf "Input file hash is not terminated with semicolon")
    else
      let content := data.drop 53
      let hash := Sha256.sum content
      if (pfx.take 52).drop 9 ≠ Base64.EncodeToString hash then
        .error (.errorf "Input file hash does not match")
      else .ok content

/-- `SafeRead` reads all data from `file`, or from `backupFile` when `file` does not exist
or is broken. -/
def SafeRead (file backupFile : Path) (fs : FS) : Except Error Bytes :=
  match read fs file with
  | .error err =>
    match read fs backupFile with
    | .error _ => .error err
    | .ok data => .ok data
  | .ok data => .ok data

/-- The header `SafeWrite` puts before the payload. -/
def header (data : Bytes) : Bytes :=
  dataHashMarker ++ Base64.EncodeToString (Sha256.sum data) ++ semicolon

/-- The encoded record of a payload: header, then the payload. -/
def encodedRecord (data : Bytes) : Bytes := header data ++ data

/-- The file system with a readable regular file of the given content at `name`. -/
def put (fs : FS) (name : Path) (content : Bytes) : FS :=
  Function.update fs name (some (.file content))

/-- The file system with nothing at `name`. -/
def del (fs : FS) (name : Path) : FS := Function.update fs name none

/-- The calls of a run from `w` to `w1` that failed, each with its error. -/
def failedSince (w w1 : World) : List (Call × Error) :=
  (w1.log.drop w.log.length).filterMap (fun ev => ev.err.map (fun e => (ev.call, e)))

/-! ## The errors of the validated read -/

/-- "Input file is too short". -/
def TooShort : Error := .errorf "Input file is too short"

/-- "Input file does not contain DataHash: prefix". -/
def MissingPrefixMarker : Error := .errorf "Input file does not contain DataHash: prefix"

/-- "Input file hash is not terminated with semicolon". -/
def MissingTerminator : Error := .errorf "Input file hash is not terminated with semicolon"

/-- "Input file hash does not match". -/
def ChecksumMismatch : Error := .errorf "Input file hash does not match"

/-- An empty file system, no interference, no history. -/
def emptyWorld : World := ⟨fun _ => none, [], []⟩

/-- The bytes of `"test"`. -/
def testData : Bytes := [116, 101, 115, 116]

/-- The bytes of `"Data"`. -/
def shortData : Bytes := [68, 97, 116, 97]

/-- The bytes of `"DataHash:47DEQpj8HBSa-_TImW-5JCeuQeRkm5NMpJWZG3hSuFU;not empty"`: the
header of the empty payload, followed by nine more bytes (`TestSafeReadEmpty`). -/
def emptyHeaderNotEmpty : Bytes :=
  [68, 97, 116, 97, 72, 97, 115, 104, 58, 52, 55, 68, 69, 81, 112, 106, 56, 72, 66, 83, 97, 45,
   95, 84, 73, 109, 87, 45, 53, 74, 67, 101, 117, 81, 101, 82, 107, 109, 53, 78, 77, 112, 74, 87,
   90, 71, 51, 104, 83, 117, 70, 85, 59, 110, 111, 116, 32, 101, 109, 112, 116, 121]

/-- A file system with just the given file at `"file.txt"`. -/
def primaryOnly (content : Bytes) : FS := put (fun _ => none) "file.txt" content

/-- A file system with the record of `"test"` at `"backup.txt"` and the four bytes `"Data"`
at `"file.txt"` (`TestSafeReadTooShort`). -/
def brokenPrimary : FS :=
  put (put (fun _ => none) "backup.txt" (encodedRecord testData)) "file.txt" shortData

/-- A world holding the record of `"test"` at `"file.txt"` in which the second system call,
the header write, fails with error number 28 after five bytes. -/
def headerFaultWorld : World :=
  ⟨primaryOnly (encodedRecord testData), [none, some ⟨28, 5⟩], []⟩

/-- A world in which only the backup path holds a record, that of `"test"`: the state
`TestSafeReadBackup` sets up, and the one a write interrupted between removing the primary
and renaming the backup leaves. -/
def fallbackWorld : World :=
  ⟨put (fun _ => none) "backup.txt" (encodedRecord testData), [], []⟩

/-- A world holding the record of `"test"` at `"file.txt"` in which the fifth system call,
the removal of the primary, fails with error number 13. -/
def removeFaultWorld : World :=
  ⟨primaryOnly (encodedRecord testData), [none, none, none, none, some ⟨13, 0⟩], []⟩

/-! ## `encoding/base64`, `RawURLEncoding`: decoding

`safeio.go` never decodes; the decoder of the library is written out only to state what
decoding the stored checksum would give. -/

/-- The 6-bit value of a character of the URL-safe alphabet (`decodeMap`), if it has one. -/
def Base64.value (ch : Byte) : Option Nat :=
  if Base64.encodeURL.indexOf ch.val < 64 then some (Base64.encodeURL.indexOf ch.val) else none

/-- The 6-bit values of the characters of a text: line feeds and carriage returns are
skipped, any other character outside the alphabet is an error. -/
def Base64.values : Bytes → Option (List Nat)
  | [] => some []
  | ch :: rest =>
    if ch = 10 ∨ ch = 13 then Base64.values rest
    else
      match Base64.value ch with
      | none => none
      | some v => (Base64.values rest).map (fun vs => v :: vs)

/-- Four 6-bit values give three octets; a last group of two or three values gives one or
two octets, the bits left over being dropped unchecked (the encoding is not strict); a last
group of a single value is an error. -/
def Base64.decodeValues : List Nat → Option Bytes
  | a :: b :: c :: d :: rest =>
    let v := a * 262144 + b * 4096 + c * 64 + d
    (Base64.decodeValues rest).map (fun t => byte (v >>> 16) :: byte (v >>> 8) :: byte v :: t)
  | [a, b, c] =>
    let v := a * 262144 + b * 4096 + c * 64
    some [byte (v >>> 16), byte (v >>> 8)]
  | [a, b] =>
    let v := a * 262144 + b * 4096
    some [byte (v >>> 16)]
  | [_] => none
  | [] => some []

/-- `RawURLEncoding.DecodeString`, `none` for an error. -/
def Base64.DecodeString (s : Bytes) : Option Bytes :=
  match Base64.values s with
  | none => none
  | some vs => Base64.decodeValues vs

/-- The bytes of `"DataHash:47DEQpj8HBSa-_TImW-5JCeuQeRkm5NMpJWZG3hSuFV;"`: the record of the
empty payload with the last checksum character `U` (bits `010100`) replaced by `V` (bits
`010101`); only the first four bits of that character belong to the digest. -/
def nonCanonicalEmptyRecord : Bytes :=
  [68, 97, 116, 97, 72, 97, 115, 104, 58, 52, 55, 68, 69, 81, 112, 106, 56, 72, 66, 83, 97, 45,
   95, 84, 73, 109, 87, 45, 53, 74, 67, 101, 117, 81, 101, 82, 107, 109, 53, 78, 77, 112, 74, 87,
   90, 71, 51, 104, 83, 117, 70, 86, 59]

/-- A world holding the record of `"test"` at `"file.txt"`, without interference. -/
def testWorld : World := ⟨primaryOnly (encodedRecord testData), [], []⟩

/-- A world holding the record of `"test"` at `"file.txt"` in which the fifth and the sixth
system call, the removal of the primary and the rename, both fail with error number 13. -/
def removeRenameFaultWorld : World :=
  ⟨primaryOnly (encodedRecord testData),
    [none, none, none, none, some ⟨13, 0⟩, some ⟨13, 0⟩], []⟩

/-- A world with nothing at `"file.txt"` in which the sixth system call, the rename, fails
with error number 13. -/
def renameFaultWorld : World :=
  ⟨fun _ => none, [none, none, none, none, none, some ⟨13, 0⟩], []⟩

/-! ## Library facts -/

theorem Sha256.length_sum (m : Bytes) : (Sha256.sum m).length = 32 := by
  simp [Sha256.sum, Sha256.be32]

theorem Base64.length_EncodeToString :
    ∀ (n : Nat) (src : Bytes), src.length ≤ n →
      (Base64.EncodeToString src).length = (src.length * 4 + 2) / 3
  | 0, src, h => by
    have : src = [] := List.length_eq_zero.mp (Nat.le_zero.mp h)
    subst this; simp [Base64.EncodeToString]
  | n + 1, [], _ => by simp [Base64.EncodeToString]
  | n + 1, [a], _ => by simp [Base64.EncodeToString]
  | n + 1, [a, b], _ => by simp [Base64.EncodeToString]
  | n + 1, a :: b :: c :: rest, h => by
    have ih := Base64.length_EncodeToString n rest (by simp at h; omega)
    simp [Base64.EncodeToString, ih]; omega

theorem length_header (data : Bytes) : (header data).length = 53 := by
  simp [header, dataHashMarker, semicolon, Base64.length_EncodeToString _ _ (le_refl _),
    Sha256.length_sum]

/-! ## The system calls -/

theorem osCreate_error {name : Path} {w w1 : World} {e : Error}
    (h : osCreate name w = (.error e, w1)) :
    w1.files = w.files ∧ w1.log = w.log ++ [⟨.create name, some e, w.files⟩] := by
  unfold osCreate at h
  split at h
  · simp only [Prod.mk.injEq, Except.error.injEq] at h
    obtain ⟨rfl, rfl⟩ := h
    simp [World.step]
  · split at h
    · simp only [Prod.mk.injEq, Except.error.injEq] at h
      obtain ⟨rfl, rfl⟩ := h
      simp [World.step]
    · simp at h

theorem osCreate_ok {name f : Path} {w w1 : World} (h : osCreate name w = (.ok f, w1)) :
    f = name ∧ w1.files = put w.files name [] ∧
      w1.log = w.log ++ [⟨.create name, none, put w.files name []⟩] := by
  unfold osCreate at h
  split at h
  · simp at h
  · split at h
    · simp at h
    · simp only [Prod.mk.injEq, Except.ok.injEq] at h
      obtain ⟨rfl, rfl⟩ := h
      simp [World.step, put]

theorem fileWrite_ok {f : Path} {b c : Bytes} {w w1 : World}
    (hc : w.files f = some (.file c)) (h : fileWrite f b w = (none, w1)) :
    w1.files = put w.files f (c ++ b) ∧
      w1.log = w.log ++ [⟨.write f, none, put w.files f (c ++ b)⟩] := by
  unfold fileWrite at h
  rw [hc] at h
  simp only at h
  split at h
  · simp at h
  · simp only [Prod.mk.injEq, true_and] at h
    subst h
    simp [World.step, put]

theorem fileWrite_error {f : Path} {b c : Bytes} {w w1 : World} {e : Error}
    (hc : w.files f = some (.file c)) (h : fileWrite f b w = (some e, w1)) :
    ∃ k, w1.files = put w.files f (c ++ b.take k) ∧
      w1.log = w.log ++ [⟨.write f, some e, put w.files f (c ++ b.take k)⟩] := by
  unfold fileWrite at h
  rw [hc] at h
  simp only at h
  split at h
  · rename_i flt _
    simp only [Prod.mk.injEq, Option.some.injEq] at h
    obtain ⟨rfl, rfl⟩ := h
    exact ⟨flt.written, by simp [World.step, put]⟩
  · simp at h

theorem fileClose_spec (f : Path) (w : World) :
    (fileClose f w).2.files = w.files ∧
      ∃ ec, (fileClose f w).2.log = w.log ++ [⟨.close f, ec, w.files⟩] := by
  unfold fileClose
  split
  · exact ⟨rfl, _, rfl⟩
  · exact ⟨rfl, _, rfl⟩

theorem osRemove_spec (name : Path) (w : World) :
    (∃ e, (osRemove name w).2.files = w.files ∧
        (osRemove name w).2.log = w.log ++ [⟨.remove name, some e, w.files⟩]) ∨
      ((osRemove name w).2.files = del w.files name ∧
        (osRemove name w).2.log = w.log ++ [⟨.remove name, none, del w.files name⟩]) := by
  unfold osRemove
  split
  · exact Or.inl ⟨_, rfl, rfl⟩
  · split
    · exact Or.inl ⟨_, rfl, rfl⟩
    · exact Or.inr ⟨rfl, rfl⟩

theorem osRename_error {o n : Path} {w w1 : World} {e : Error}
    (h : osRename o n w = (some e, w1)) :
    w1.files = w.files ∧ w1.log = w.log ++ [⟨.rename o n, some e, w.files⟩] := by
  unfold osRename at h
  split at h
  · simp only [Prod.mk.injEq, Option.some.injEq] at h
    obtain ⟨rfl, rfl⟩ := h
    simp [World.step]
  · split at h
    · simp only [Prod.mk.injEq, Option.some.injEq] at h
      obtain ⟨rfl, rfl⟩ := h
      simp [World.step]
    · simp at h

theorem osRename_ok {o n : Path} {w w1 : World} (h : osRename o n w = (none, w1)) :
    ∃ ent, w.files o = some ent ∧ w1.files = Function.update (del w.files o) n (some ent) ∧
      w1.log = w.log ++ [⟨.rename o n, none, Function.update (del w.files o) n (some ent)⟩] := by
  unfold osRename at h
  split at h
  · simp at h
  · split at h
    · simp at h
    · rename_i ent hent
      simp only [Prod.mk.injEq, true_and] at h
      subst h
      exact ⟨ent, hent, by simp [World.step, del], by simp [World.step, del]⟩

@[simp] theorem put_same (fs : FS) (name : Path) (c : Bytes) :
    put fs name c name = some (.file c) := by simp [put]

@[simp] theorem put_other (fs : FS) {name q : Path} (c : Bytes) (h : q ≠ name) :
    put fs name c q = fs q := by simp [put, h]

@[simp] theorem del_same (fs : FS) (name : Path) : del fs name name = none := by simp [del]

@[simp] theorem del_other (fs : FS) {name q : Path} (h : q ≠ name) :
    del fs name q = fs q := by simp [del, h]

@[simp] theorem put_put (fs : FS) (name : Path) (c d : Bytes) :
    put (put fs name c) name d = put fs name d := by simp [put]

/-! ## The runs of `SafeWrite` -/

/-- Every run of `SafeWrite` has one of four shapes: the creation of the backup file
fails; the header write fails; the payload write fails; or the record is written whole,
the file closed, the removal of the primary attempted and the rename attempted. -/
theorem SafeWrite_run (data : Bytes) (file backupFile : Path) (w : World) :
    (∃ e, (SafeWrite data file backupFile w).1 = some e ∧
        (SafeWrite data file backupFile w).2.files = w.files ∧
        (SafeWrite data file backupFile w).2.log =
          w.log ++ [⟨.create backupFile, some e, w.files⟩]) ∨
    (∃ e k ec, (SafeWrite data file backupFile w).1 = some e ∧
        (SafeWrite data file backupFile w).2.files =
          put w.files backupFile ((header data).take k) ∧
        (SafeWrite data file backupFile w).2.log =
          w.log ++ [⟨.create backupFile, none, put w.files backupFile []⟩,
            ⟨.write backupFile, some e, put w.files backupFile ((header data).take k)⟩,
            ⟨.close backupFile, ec, put w.files backupFile ((header data).take k)⟩]) ∨
    (∃ e k ec, (SafeWrite data file backupFile w).1 = some e ∧
        (SafeWrite data file backupFile w).2.files =
          put w.files backupFile (header data ++ data.take k) ∧
        (SafeWrite data file backupFile w).2.log =
          w.log ++ [⟨.create backupFile, none, put w.files backupFile []⟩,
            ⟨.write backupFile, none, put w.files backupFile (header data)⟩,
            ⟨.write backupFile, some e, put w.files backupFile (header data ++ data.take k)⟩,
            ⟨.close backupFile, ec, put w.files backupFile (header data ++ data.take k)⟩]) ∨
    (∃ ec er F4 r F5,
        ((∃ e, er = some e) ∧ F4 = put w.files backupFile (encodedRecord data) ∨
          er = none ∧ F4 = del (put w.files backupFile (encodedRecord data)) file) ∧
        ((∃ e, r = some e) ∧ F5 = F4 ∨
          r = none ∧ F4 backupFile = some (.file (encodedRecord data)) ∧
            F5 = put (del F4 backupFile) file (encodedRecord data)) ∧
        (SafeWrite data file backupFile w).1 = r ∧
        (SafeWrite data file backupFile w).2.files = F5 ∧
        (SafeWrite data file backupFile w).2.log =
          w.log ++ [⟨.create backupFile, none, put w.files backupFile []⟩,
            ⟨.write backupFile, none, put w.files backupFile (header data)⟩,
            ⟨.write backupFile, none, put w.files backupFile (encodedRecord data)⟩,
            ⟨.close backupFile, ec, put w.files backupFile (encodedRecord data)⟩,
            ⟨.remove file, er, F4⟩,
            ⟨.rename backupFile file, r, F5⟩]) := by
  unfold SafeWrite
  rcases hcr : osCreate backupFile w with ⟨r1, w1⟩
  cases r1 with
  | error e =>
    obtain ⟨hf, hl⟩ := osCreate_error hcr
    exact Or.inl ⟨e, rfl, hf, hl⟩
  | ok f =>
    obtain ⟨rfl, hf1, hl1⟩ := osCreate_ok hcr
    have hc1 : w1.files f = some (.file []) := by simp [hf1]
    right
    simp only []
    rcases hw1 : fileWrite f (dataHashMarker ++ Base64.EncodeToString (Sha256.sum data)
      ++ semicolon) w1 with ⟨r2, w2⟩
    cases r2 with
    | some e =>
      obtain ⟨k, hf2, hl2⟩ := fileWrite_error hc1 hw1
      obtain ⟨hf3, ec, hl3⟩ := fileClose_spec f w2
      refine Or.inl ⟨e, k, ec, rfl, ?_, ?_⟩
      · simp [hf3, hf2, hf1, header]
      · simp [hl3, hl2, hl1, hf2, hf1, header]
    | none =>
      obtain ⟨hf2, hl2⟩ := fileWrite_ok hc1 hw1
      have hc2 : w2.files f = some (.file (header data)) := by simp [hf2, header]
      right
      simp only []
      rcases hw2 : fileWrite f data w2 with ⟨r3, w3⟩
      cases r3 with
      | some e =>
        obtain ⟨k, hf3, hl3⟩ := fileWrite_error hc2 hw2
        obtain ⟨hf4, ec, hl4⟩ := fileClose_spec f w3
        refine Or.inl ⟨e, k, ec, rfl, ?_, ?_⟩
        · simp [hf4, hf3, hf2, hf1]
        · simp [hl4, hl3, hl2, hl1, hf3, hf2, hf1, header]
      | none =>
        obtain ⟨hf3, hl3⟩ := fileWrite_ok hc2 hw2
        obtain ⟨hf4, ec, hl4⟩ := fileClose_spec f w3
        have hF3 : (fileClose f w3).2.files = put w.files f (encodedRecord data) := by
          simp [hf4, hf3, hf2, hf1, encodedRecord]
        have hL3 : (fileClose f w3).2.log =
            w.log ++ [⟨.create f, none, put w.files f []⟩,
              ⟨.write f, none, put w.files f (header data)⟩,
              ⟨.write f, none, put w.files f (encodedRecord data)⟩,
              ⟨.close f, ec, put w.files f (encodedRecord data)⟩] := by
          simp [hl4, hl3, hl2, hl1, hf3, hf2, hf1, header, encodedRecord]
        right
        simp only []
        generalize (fileClose f w3).2 = w4 at hF3 hL3
        have hrm := osRemove_spec file w4
        generalize hw5 : (osRemove file w4).2 = w5 at hrm
        rcases hrn : osRename f file w5 with ⟨r, w6⟩
        have hshape : ∃ er F4,
            ((∃ e, er = some e) ∧ F4 = put w.files f (encodedRecord data) ∨
              er = none ∧ F4 = del (put w.files f (encodedRecord data)) file) ∧
            w5.files = F4 ∧
            w5.log = w.log ++ [⟨.create f, none, put w.files f []⟩,
              ⟨.write f, none, put w.files f (header data)⟩,
              ⟨.write f, none, put w.files f (encodedRecord data)⟩,
              ⟨.close f, ec, put w.files f (encodedRecord data)⟩,
              ⟨.remove file, er, F4⟩] := by
          rcases hrm with ⟨e, h1, h2⟩ | ⟨h1, h2⟩
          · exact ⟨some e, _, Or.inl ⟨⟨e, rfl⟩, rfl⟩, by rw [h1, hF3], by simp [h2, hL3, hF3]⟩
          · exact ⟨none, _, Or.inr ⟨rfl, rfl⟩, by rw [h1, hF3], by simp [h2, hL3, hF3]⟩
        obtain ⟨er, F4, hF4, h5f, h5l⟩ := hshape
        cases r with
        | some e =>
          obtain ⟨h6f, h6l⟩ := osRename_error hrn
          refine ⟨ec, er, F4, some e, F4, hF4, Or.inl ⟨⟨e, rfl⟩, rfl⟩, rfl, ?_, ?_⟩
          · simp [h6f, h5f]
          · simp [h6l, h5l, h5f]
        | none =>
          obtain ⟨ent, hent, h6f, h6l⟩ := osRename_ok hrn
          have hentF : F4 f = some (.file (encodedRecord data)) := by
            rcases hF4 with ⟨_, rfl⟩ | ⟨_, rfl⟩
            · simp
            · by_cases hpf : f = file
              · subst hpf; rw [h5f] at hent; simp at hent
              · simp [hpf]
          have hent2 : ent = .file (encodedRecord data) := by
            rw [h5f, hentF] at hent; exact (Option.some.inj hent).symm
          subst hent2
          refine ⟨ec, er, F4, none, _, hF4, Or.inr ⟨rfl, hentF, rfl⟩, rfl, ?_, ?_⟩
          · simp [h6f, h5f, put]
          · simp [h6l, h5l, h5f, put]

/-! ## The validated read -/

theorem drop_52_take_53 (data : Bytes) (h : 53 ≤ data.length) (x : Byte) :
    (data.take 53).drop 52 = [x] ↔ data[52]? = some x := by
  have h52 : 52 < data.length := by omega
  have h1 : (data.take 53).drop 52 = [data[52]] := by
    rw [List.drop_take, List.drop_eq_getElem_cons h52]
    rfl
  rw [h1, List.getElem?_eq_getElem h52]
  simp

/-- The validated read of a readable file, as a decision list over its content. -/
theorem read_file {fs : FS} {file : Path} {data : Bytes} (h : fs file = some (.file data)) :
    read fs file =
      if data.length < 53 then .error TooShort
      else if data.take 9 ≠ dataHashMarker then .error MissingPrefixMarker
      else if data[52]? ≠ some 59 then .error MissingTerminator
      else if (data.take 52).drop 9 ≠ Base64.EncodeToString (Sha256.sum (data.drop 53)) then
        .error ChecksumMismatch
      else .ok (data.drop 53) := by
  unfold read ReadFile
  rw [h]
  simp only []
  by_cases hlen : data.length < 53
  · simp [hlen, TooShort]
  · have hge : 53 ≤ data.length := by omega
    have ht : (data.take 53).length = 53 := by simp [hge]
    have hpre : HasPrefix (data.take 53) dataHashMarker = decide (data.take 9 = dataHashMarker) := by
      simp [HasPrefix, dataHashMarker, ht, List.take_take]
    have hsuf : HasSuffix (data.take 53) semicolon = decide (data[52]? = some 59) := by
      have := drop_52_take_53 data hge 59
      simp only [HasSuffix, semicolon, ht, List.length_singleton]
      simp [this]
    have hmid : ((data.take 53).take 52).drop 9 = (data.take 52).drop 9 := by
      simp [List.take_take]
    rw [hpre, hsuf, hmid]
    simp only [hlen, if_false]
    by_cases h1 : data.take 9 = dataHashMarker
    · by_cases h2 : data[52]? = some 59
      · simp [h1, h2, ChecksumMismatch]
      · simp [h1, h2, MissingTerminator]
    · simp [h1, MissingPrefixMarker]

theorem encodedRecord_parts (d : Bytes) :
    (encodedRecord d).length = 53 + d.length ∧ (encodedRecord d).take 9 = dataHashMarker ∧
      (encodedRecord d)[52]? = some 59 ∧
      ((encodedRecord d).take 52).drop 9 = Base64.EncodeToString (Sha256.sum d) ∧
      (encodedRecord d).drop 53 = d := by
  have hE : (Base64.EncodeToString (Sha256.sum d)).length = 43 := by
    simp [Base64.length_EncodeToString _ _ (le_refl _), Sha256.length_sum]
  have hH := length_header d
  refine ⟨by simp [encodedRecord, hH], ?_, ?_, ?_, ?_⟩
  · simp [encodedRecord, header, dataHashMarker]
  · have h52 : (dataHashMarker ++ Base64.EncodeToString (Sha256.sum d)).length = 52 := by
      simp [dataHashMarker, hE]
    have : encodedRecord d
        = (dataHashMarker ++ Base64.EncodeToString (Sha256.sum d)) ++ (59 :: d) := by
      simp [encodedRecord, header, semicolon]
    rw [this, List.getElem?_append_right (by omega)]
    simp [h52]
  · have h52 : (dataHashMarker ++ Base64.EncodeToString (Sha256.sum d)).length = 52 := by
      simp [dataHashMarker, hE]
    have : encodedRecord d
        = (dataHashMarker ++ Base64.EncodeToString (Sha256.sum d)) ++ (59 :: d) := by
      simp [encodedRecord, header, semicolon]
    rw [this, List.take_left' h52]
    exact List.drop_left' (by simp [dataHashMarker])
  · exact List.drop_left' hH

/-- A file holding the encoded record of `d` passes validation with payload `d`. -/
theorem read_encodedRecord {fs : FS} {file : Path} {d : Bytes}
    (h : fs file = some (.file (encodedRecord d))) : read fs file = .ok d := by
  obtain ⟨h1, h2, h3, h4, h5⟩ := encodedRecord_parts d
  rw [read_file h]
  simp [h1, h2, h3, h4, h5]

/-- Only a file holding the encoded record of `d` passes validation with payload `d`. -/
theorem read_ok {fs : FS} {file : Path} {d : Bytes} (h : read fs file = .ok d) :
    fs file = some (.file (encodedRecord d)) := by
  rcases hf : fs file with _ | ⟨data⟩ | errno
  · simp [read, ReadFile, hf] at h
  · rw [read_file hf] at h
    split at h
    · simp at h
    · split at h
      · simp at h
      · split at h
        · simp at h
        · split at h
          · simp at h
          · rename_i h0 h1 h2 h3
            simp only [Except.ok.injEq] at h
            simp only [ne_eq, not_not] at h1 h2 h3
            have hlen : 53 ≤ data.length := by omega
            have h52 : 52 < data.length := by omega
            have e1 : data = data.take 52 ++ data.drop 52 := (List.take_append_drop 52 data).symm
            have e2 : data.drop 52 = 59 :: data.drop 53 := by
              rw [List.drop_eq_getElem_cons h52]
              rw [List.getElem?_eq_getElem h52] at h2
              simp at h2
              simp [h2]
            have e3 : data.take 52 = (data.take 52).take 9 ++ (data.take 52).drop 9 :=
              (List.take_append_drop 9 _).symm
            have e4 : (data.take 52).take 9 = data.take 9 := by simp [List.take_take]
            rw [e4, h1, h3, h] at e3
            rw [e2, e3, h] at e1
            rw [e1]
            simp [encodedRecord, header, semicolon]
  · simp [read, ReadFile, hf] at h

/-! ## `SafeRead` -/

theorem SafeRead_of_read_ok {fs : FS} {file backupFile : Path} {d : Bytes}
    (h : read fs file = .ok d) : SafeRead file backupFile fs = .ok d := by
  simp [SafeRead, h]

theorem SafeRead_of_read_error {fs : FS} {file backupFile : Path} {e : Error}
    (h : read fs file = .error e) :
    SafeRead file backupFile fs =
      match read fs backupFile with
      | .error _ => .error e
      | .ok d => .ok d := by
  simp [SafeRead, h]

/-- A successful `SafeWrite` leaves the record at `file`, nothing at `backupFile`, and
every other path as it was. -/
theorem SafeWrite_success {data : Bytes} {file backupFile : Path} {w : World}
    (hne : file ≠ backupFile) (hok : (SafeWrite data file backupFile w).1 = none) :
    (SafeWrite data file backupFile w).2.files file = some (.file (encodedRecord data)) ∧
      (SafeWrite data file backupFile w).2.files backupFile = none ∧
      ∀ q, q ≠ file → q ≠ backupFile →
        (SafeWrite data file backupFile w).2.files q = w.files q := by
  have hne2 : backupFile ≠ file := fun h => hne h.symm
  rcases SafeWrite_run data file backupFile w with
    ⟨e, h1, -⟩ | ⟨e, k, ec, h1, -⟩ | ⟨e, k, ec, h1, -⟩ | ⟨ec, er, F4, r, F5, hF4, hF5, h1, h2, -⟩
  · rw [h1] at hok; simp at hok
  · rw [h1] at hok; simp at hok
  · rw [h1] at hok; simp at hok
  · rw [h1] at hok
    subst hok
    rcases hF5 with ⟨⟨e, he⟩, -⟩ | ⟨-, -, rfl⟩
    · simp at he
    · rw [h2]
      refine ⟨by simp, by simp [hne2], ?_⟩
      intro q hq1 hq2
      rcases hF4 with ⟨-, rfl⟩ | ⟨-, rfl⟩ <;> simp [hq1, hq2]

/-! ## The claims -/

/-- C1 (round trip).  For every byte sequence `data`, distinct paths and every initial
world: if `SafeWrite data file backupFile` returns no error, then `SafeRead file
backupFile` on the file system it leaves returns exactly `data` and no error. -/
theorem SafeRead_after_SafeWrite (data : Bytes) (file backupFile : Path) (w : World)
    (hne : file ≠ backupFile) (hok : (SafeWrite data file backupFile w).1 = none) :
    SafeRead file backupFile (SafeWrite data file backupFile w).2.files = .ok data :=
  SafeRead_of_read_ok (read_encodedRecord (SafeWrite_success hne hok).1)

/-- Witness of C1: writing `"test"` into an empty file system and reading it back. -/
theorem SafeRead_after_SafeWrite_witness :
    SafeRead "file.txt" "backup.txt"
      (SafeWrite testData "file.txt" "backup.txt" emptyWorld).2.files = .ok testData :=
  SafeRead_after_SafeWrite testData "file.txt" "backup.txt" emptyWorld (by decide) (by decide)

/-- C2 (fallback).  In every file system in which the validated read of the primary path
fails, for whatever reason, and the backup path holds the encoded record of `X`,
`SafeRead` returns `X` and no error. -/
theorem SafeRead_fallback (fs : FS) (file backupFile : Path) (X : Bytes) (e : Error)
    (hp : read fs file = .error e)
    (hb : fs backupFile = some (.file (encodedRecord X))) :
    SafeRead file backupFile fs = .ok X := by
  rw [SafeRead_of_read_error hp, read_encodedRecord hb]

/-- C3 (total failure).  When the validated read fails on both paths, `SafeRead` returns
the error of the primary's read, whatever the backup's error is; when neither file exists
that is the not-found error for the primary path. -/
theorem SafeRead_total_failure (fs : FS) (file backupFile : Path) (e e2 : Error)
    (hp : read fs file = .error e) (hb : read fs backupFile = .error e2) :
    SafeRead file backupFile fs = .error e ∧
      (fs file = none → SafeRead file backupFile fs = .error (.sys file ENOENT)) := by
  have h : SafeRead file backupFile fs = .error e := by
    rw [SafeRead_of_read_error hp, hb]
  refine ⟨h, fun hf => ?_⟩
  have : read fs file = .error (.sys file ENOENT) := by simp [read, ReadFile, hf]
  rw [this] at hp
  rw [h, ← Except.error.inj hp]

/-- C4 (write postcondition).  If `SafeWrite data file backupFile` returns no error, for
distinct paths and from any world, the file at `file` consists of exactly
`"DataHash:" ++ base64url(SHA-256(data)) ++ ";" ++ data` and nothing exists at
`backupFile`. -/
theorem SafeWrite_postcondition (data : Bytes) (file backupFile : Path) (w : World)
    (hne : file ≠ backupFile) (hok : (SafeWrite data file backupFile w).1 = none) :
    (SafeWrite data file backupFile w).2.files file =
        some (.file (dataHashMarker ++ Base64.EncodeToString (Sha256.sum data) ++ semicolon
          ++ data)) ∧
      (SafeWrite data file backupFile w).2.files backupFile = none :=
  ⟨(SafeWrite_success hne hok).1, (SafeWrite_success hne hok).2.1⟩

/-- C8 (primary preferred).  When the content of the primary path passes validation with
payload `X`, `SafeRead` returns `X` and no error, and it still does after the backup path
is replaced by anything at all (nothing, an unreadable entry, any file). -/
theorem SafeRead_primary_preferred (fs : FS) (file backupFile : Path) (X : Bytes)
    (hne : file ≠ backupFile) (hp : read fs file = .ok X) :
    SafeRead file backupFile fs = .ok X ∧
      ∀ ent : Option Entry, SafeRead file backupFile (Function.update fs backupFile ent) = .ok X := by
  refine ⟨SafeRead_of_read_ok hp, fun ent => SafeRead_of_read_ok ?_⟩
  apply read_encodedRecord
  rw [Function.update_noteq hne]
  exact read_ok hp

/-- Witness of C2: `"Data"` at the primary path, the record of `"test"` at the backup. -/
theorem SafeRead_fallback_witness :
    SafeRead "file.txt" "backup.txt" brokenPrimary = .ok testData :=
  SafeRead_fallback brokenPrimary "file.txt" "backup.txt" testData TooShort (by rfl) (by rfl)

/-- Witness of C3: neither file exists. -/
theorem SafeRead_total_failure_witness :
    SafeRead "file.txt" "backup.txt" (fun _ => none) = .error (.sys "file.txt" ENOENT) :=
  (SafeRead_total_failure (fun _ => none) "file.txt" "backup.txt" (.sys "file.txt" ENOENT)
    (.sys "backup.txt" ENOENT) (by rfl) (by rfl)).2 rfl

/-- Witness of C4: writing `"test"` into an empty file system. -/
theorem SafeWrite_postcondition_witness :
    (SafeWrite testData "file.txt" "backup.txt" emptyWorld).2.files "file.txt" =
        some (.file (dataHashMarker ++ Base64.EncodeToString (Sha256.sum testData) ++ semicolon
          ++ testData)) ∧
      (SafeWrite testData "file.txt" "backup.txt" emptyWorld).2.files "backup.txt" = none :=
  SafeWrite_postcondition testData "file.txt" "backup.txt" emptyWorld (by decide) (by decide)

/-- Witness of C8: the record of `"test"` at the primary path, the backup path
overwritten with the bytes `"Data"`. -/
theorem SafeRead_primary_preferred_witness :
    SafeRead "file.txt" "backup.txt"
      (Function.update (primaryOnly (encodedRecord testData)) "backup.txt"
        (some (.file shortData))) = .ok testData :=
  (SafeRead_primary_preferred (primaryOnly (encodedRecord testData)) "file.txt" "backup.txt"
    testData (by decide) (read_encodedRecord (by rfl))).2 (some (.file shortData))

/-- C5 (atomicity on failure).  For distinct paths: when the creation of the backup file or
a write into it (header or payload) fails with `e`, `SafeWrite` returns `e` and the primary
path is exactly as before the call, missing or with the same content; when it is the
creation that fails, no path at all has changed. -/
theorem SafeWrite_failure_keeps_primary (data : Bytes) (file backupFile : Path) (w : World)
    (e : Error) (hne : file ≠ backupFile)
    (hwhy : (Call.create backupFile, e) ∈ failedSince w (SafeWrite data file backupFile w).2 ∨
      (Call.write backupFile, e) ∈ failedSince w (SafeWrite data file backupFile w).2) :
    (SafeWrite data file backupFile w).1 = some e ∧
      (SafeWrite data file backupFile w).2.files file = w.files file ∧
      ((Call.create backupFile, e) ∈ failedSince w (SafeWrite data file backupFile w).2 →
        (SafeWrite data file backupFile w).2.files = w.files) := by
  rcases SafeWrite_run data file backupFile w with
    ⟨e1, h1, h2, h3⟩ | ⟨e1, k, ec, h1, h2, h3⟩ | ⟨e1, k, ec, h1, h2, h3⟩ |
    ⟨ec, er, F4, r, F5, hF4, hF5, h1, h2, h3⟩
  · simp only [failedSince, h3, List.drop_left] at hwhy ⊢
    simp at hwhy
    subst hwhy
    exact ⟨h1, by rw [h2], fun _ => h2⟩
  · simp only [failedSince, h3, List.drop_left] at hwhy ⊢
    cases ec <;> simp at hwhy <;> subst hwhy <;>
      exact ⟨h1, by simp [h2, hne], fun h => by simp at h⟩
  · simp only [failedSince, h3, List.drop_left] at hwhy ⊢
    cases ec <;> simp at hwhy <;> subst hwhy <;>
      exact ⟨h1, by simp [h2, hne], fun h => by simp at h⟩
  · simp only [failedSince, h3, List.drop_left] at hwhy ⊢
    cases ec <;> cases er <;> cases r <;> simp at hwhy

/-- Witness of C5: the header write fails after five bytes; the record of `"test"` at the
primary path is as before. -/
theorem SafeWrite_failure_keeps_primary_witness :
    (SafeWrite shortData "file.txt" "backup.txt" headerFaultWorld).1
        = some (.sys "backup.txt" 28) ∧
      (SafeWrite shortData "file.txt" "backup.txt" headerFaultWorld).2.files "file.txt"
        = headerFaultWorld.files "file.txt" :=
  ⟨(SafeWrite_failure_keeps_primary shortData "file.txt" "backup.txt" headerFaultWorld
      (.sys "backup.txt" 28) (by decide) (Or.inr (by decide))).1,
   (SafeWrite_failure_keeps_primary shortData "file.txt" "backup.txt" headerFaultWorld
      (.sys "backup.txt" 28) (by decide) (Or.inr (by decide))).2.1⟩

/-- C9 (validation accepts exactly the encoded records).  For a readable file of content
`data`: the validated read succeeds with payload `d` if and only if `data` is
`"DataHash:" ++ base64url(SHA-256(d)) ++ ";" ++ d`; a payload it returns is `data[53:]`; a
content whose header checksum `data[9:52]` is not the encoded SHA-256 of `data[53:]` is
rejected; and the header of the empty payload followed by `"not empty"` is rejected with
"Input file hash does not match". -/
theorem read_accepts_exactly_records (fs : FS) (file : Path) (data : Bytes)
    (h : fs file = some (.file data)) :
    (∀ d, read fs file = .ok d ↔
        data = dataHashMarker ++ Base64.EncodeToString (Sha256.sum d) ++ semicolon ++ d) ∧
      (∀ d, read fs file = .ok d → d = data.drop 53) ∧
      ((data.take 52).drop 9 ≠ Base64.EncodeToString (Sha256.sum (data.drop 53)) →
        ∃ e, read fs file = .error e) ∧
      read (primaryOnly emptyHeaderNotEmpty) "file.txt" = .error ChecksumMismatch := by
  refine ⟨fun d => ⟨fun hd => ?_, fun hd => ?_⟩, fun d hd => ?_, fun hne => ?_, ?_⟩
  · have := read_ok hd
    rw [h] at this
    exact Entry.file.inj (Option.some.inj this)
  · exact read_encodedRecord (h.trans (by rw [hd]; rfl))
  · have := read_ok hd
    rw [h] at this
    rw [Entry.file.inj (Option.some.inj this), (encodedRecord_parts d).2.2.2.2]
  · rw [read_file h]
    by_cases h0 : data.length < 53
    · exact ⟨_, if_pos h0⟩
    · rw [if_neg h0]
      by_cases h1 : data.take 9 ≠ dataHashMarker
      · exact ⟨_, if_pos h1⟩
      · rw [if_neg h1]
        by_cases h2 : data[52]? ≠ some 59
        · exact ⟨_, if_pos h2⟩
        · rw [if_neg h2, if_pos hne]
          exact ⟨_, rfl⟩
  · rfl

/-- Witness of C9: the content of `TestSafeReadEmpty` is rejected. -/
theorem read_accepts_exactly_records_witness :
    ∃ e, read (primaryOnly emptyHeaderNotEmpty) "file.txt" = .error e :=
  (read_accepts_exactly_records (primaryOnly emptyHeaderNotEmpty) "file.txt"
    emptyHeaderNotEmpty (by rfl)).2.2.1 (by decide)

/-- C10 (error kinds and their precedence).  For a readable file of content `data` the
validated read fails with `TooShort` exactly when `data` has fewer than 53 bytes; otherwise
with `MissingPrefixMarker` exactly when `data[0:9]` is not `"DataHash:"`; otherwise with
`MissingTerminator` exactly when `data[52]` is not `;`; otherwise with `ChecksumMismatch`
exactly when `data[9:52]` is not the encoded SHA-256 of `data[53:]`; otherwise it succeeds
with `data[53:]`.  So 53 well-formed bytes carrying the checksum of the empty payload are
accepted with an empty payload. -/
theorem read_error_precedence (fs : FS) (file : Path) (data : Bytes)
    (h : fs file = some (.file data)) :
    (read fs file = .error TooShort ↔ data.length < 53) ∧
      (read fs file = .error MissingPrefixMarker ↔
        53 ≤ data.length ∧ data.take 9 ≠ dataHashMarker) ∧
      (read fs file = .error MissingTerminator ↔
        53 ≤ data.length ∧ data.take 9 = dataHashMarker ∧ data[52]? ≠ some 59) ∧
      (read fs file = .error ChecksumMismatch ↔
        53 ≤ data.length ∧ data.take 9 = dataHashMarker ∧ data[52]? = some 59 ∧
          (data.take 52).drop 9 ≠ Base64.EncodeToString (Sha256.sum (data.drop 53))) ∧
      (read fs file = .ok (data.drop 53) ↔
        53 ≤ data.length ∧ data.take 9 = dataHashMarker ∧ data[52]? = some 59 ∧
          (data.take 52).drop 9 = Base64.EncodeToString (Sha256.sum (data.drop 53))) ∧
      (data.length = 53 → data.take 9 = dataHashMarker → data[52]? = some 59 →
        (data.take 52).drop 9 = Base64.EncodeToString (Sha256.sum []) →
        read fs file = .ok []) := by
  have d12 : TooShort ≠ MissingPrefixMarker := by decide
  have d13 : TooShort ≠ MissingTerminator := by decide
  have d14 : TooShort ≠ ChecksumMismatch := by decide
  have d23 : MissingPrefixMarker ≠ MissingTerminator := by decide
  have d24 : MissingPrefixMarker ≠ ChecksumMismatch := by decide
  have d34 : MissingTerminator ≠ ChecksumMismatch := by decide
  have d21 := d12.symm
  have d31 := d13.symm
  have d41 := d14.symm
  have d32 := d23.symm
  have d42 := d24.symm
  have d43 := d34.symm
  have hnil : data.length = 53 → data.drop 53 = [] := fun hl =>
    List.drop_eq_nil_of_le (by omega)
  rw [read_file h]
  refine ⟨?_, ?_, ?_, ?_, ?_, ?_⟩
  · split_ifs <;> simp_all
  · split_ifs <;> simp_all
  · split_ifs <;> simp_all
  · split_ifs <;> simp_all
  · split_ifs <;> simp_all
  · intro hl h1 h2 h3
    rw [← hnil hl] at h3
    rw [if_neg (by omega), if_neg (by simp [h1]), if_neg (by simp [h2]), if_neg (by simp [h3]),
      hnil hl]

/-- Witness of C10: the 53 bytes `"DataHash:47DEQpj8HBSa-_TImW-5JCeuQeRkm5NMpJWZG3hSuFU;"`
are accepted with an empty payload. -/
theorem read_error_precedence_witness :
    read (primaryOnly (emptyHeaderNotEmpty.take 53)) "file.txt" = .ok [] :=
  (read_error_precedence (primaryOnly (emptyHeaderNotEmpty.take 53)) "file.txt"
    (emptyHeaderNotEmpty.take 53) (by rfl)).2.2.2.2.2
    (by decide) (by decide) (by decide) (by decide)

/-! ## Interrupted writes -/

theorem SafeRead_put_backup {fs : FS} {file backupFile : Path} {old : Bytes}
    (hne : file ≠ backupFile) (hold : fs file = some (.file (encodedRecord old)))
    (content : Bytes) :
    put fs backupFile content file = fs file ∧
      SafeRead file backupFile (put fs backupFile content) = .ok old := by
  have h : put fs backupFile content file = fs file := put_other fs content hne
  exact ⟨h, SafeRead_of_read_ok (read_encodedRecord (h.trans hold))⟩

theorem SafeRead_removed (fs : FS) {file backupFile : Path} (new : Bytes)
    (hne : file ≠ backupFile) :
    SafeRead file backupFile (del (put fs backupFile (encodedRecord new)) file) = .ok new := by
  have hne2 : backupFile ≠ file := fun h => hne h.symm
  have h1 : read (del (put fs backupFile (encodedRecord new)) file) file
      = .error (.sys file ENOENT) := by simp [read, ReadFile]
  rw [SafeRead_of_read_error h1, @read_encodedRecord _ backupFile new (by simp [hne2])]

theorem SafeRead_renamed (fs : FS) (file backupFile : Path) (new : Bytes) :
    SafeRead file backupFile (put fs file (encodedRecord new)) = .ok new :=
  SafeRead_of_read_ok (read_encodedRecord (by simp))

/-- The counterexample to C6: with the stored value `"test"` held by the backup path alone,
`SafeRead` returns it; in the state right after `SafeWrite` has created (truncated) the
backup file, `SafeRead` fails. -/
theorem crash_after_create_loses_backup_value :
    SafeRead "file.txt" "backup.txt" fallbackWorld.files = .ok testData ∧
      ∃ s ∈ statesSince fallbackWorld
          (SafeWrite shortData "file.txt" "backup.txt" fallbackWorld).2,
        SafeRead "file.txt" "backup.txt" s = .error (.sys "file.txt" ENOENT) :=
  ⟨by rfl, _, List.Mem.head _, by rfl⟩

/-- C6, amended (crash resistance of the stored value).  For distinct paths, when the
primary path holds the encoded record of `old`: in the initial state and in every state
`SafeWrite new file backupFile` passes through (after each of create-backup, write-header,
write-payload, close, remove-primary and rename, the two writes possibly cut short),
`SafeRead` succeeds and returns `old` or `new`. -/
theorem SafeWrite_crash_keeps_old_or_new (old new : Bytes) (file backupFile : Path) (w : World)
    (hne : file ≠ backupFile) (hold : w.files file = some (.file (encodedRecord old))) :
    ∀ s ∈ w.files :: statesSince w (SafeWrite new file backupFile w).2,
      SafeRead file backupFile s = .ok old ∨ SafeRead file backupFile s = .ok new := by
  have hP := fun content => (SafeRead_put_backup hne hold content).2
  have h0 : SafeRead file backupFile w.files = .ok old :=
    SafeRead_of_read_ok (read_encodedRecord hold)
  intro s hs
  rcases SafeWrite_run new file backupFile w with
    ⟨e1, -, -, h3⟩ | ⟨e1, k, ec, -, -, h3⟩ | ⟨e1, k, ec, -, -, h3⟩ |
    ⟨ec, er, F4, r, F5, hF4, hF5, -, -, h3⟩
  · simp only [statesSince, h3, List.drop_left] at hs
    simp at hs
    subst hs
    exact Or.inl h0
  · simp only [statesSince, h3, List.drop_left] at hs
    simp at hs
    rcases hs with rfl | rfl | rfl <;> first | exact Or.inl h0 | exact Or.inl (hP _)
  · simp only [statesSince, h3, List.drop_left] at hs
    simp at hs
    rcases hs with rfl | rfl | rfl | rfl <;> first | exact Or.inl h0 | exact Or.inl (hP _)
  · simp only [statesSince, h3, List.drop_left] at hs
    simp at hs
    have h4 : SafeRead file backupFile F4 = .ok old ∨ SafeRead file backupFile F4 = .ok new := by
      rcases hF4 with ⟨-, rfl⟩ | ⟨-, rfl⟩
      · exact Or.inl (hP _)
      · exact Or.inr (SafeRead_removed _ _ hne)
    have h5 : SafeRead file backupFile F5 = .ok old ∨ SafeRead file backupFile F5 = .ok new := by
      rcases hF5 with ⟨-, rfl⟩ | ⟨-, -, rfl⟩
      · exact h4
      · exact Or.inr (SafeRead_renamed _ _ _ _)
    rcases hs with rfl | rfl | rfl | rfl | rfl | rfl <;>
      first | exact Or.inl h0 | exact Or.inl (hP _) | exact h4 | exact h5

/-- Witness of C6: the header write is cut short after five bytes; the state it leaves
still reads `"test"`. -/
theorem SafeWrite_crash_keeps_old_or_new_witness :
    SafeRead "file.txt" "backup.txt"
        ((statesSince headerFaultWorld
          (SafeWrite shortData "file.txt" "backup.txt" headerFaultWorld).2).getD 1
            (fun _ => none)) = .ok testData ∨
      SafeRead "file.txt" "backup.txt"
        ((statesSince headerFaultWorld
          (SafeWrite shortData "file.txt" "backup.txt" headerFaultWorld).2).getD 1
            (fun _ => none)) = .ok shortData :=
  SafeWrite_crash_keeps_old_or_new testData shortData "file.txt" "backup.txt" headerFaultWorld
    (by decide) (by rfl) _ (List.Mem.tail _ (List.Mem.tail _ (List.Mem.head _)))

/-- The counterexample to C7: the primary path holds the record of `"test"` and the removal
of the primary fails (its error is ignored).  The state after the removal step, which is
later than the closing of the backup file, still reads `"test"`, not the new `"Data"`. -/
theorem failed_remove_still_reads_old :
    (∃ s ∈ (statesSince removeFaultWorld
          (SafeWrite shortData "file.txt" "backup.txt" removeFaultWorld).2).drop 4,
        SafeRead "file.txt" "backup.txt" s = .ok testData) ∧
      ¬ ∀ s ∈ (statesSince removeFaultWorld
          (SafeWrite shortData "file.txt" "backup.txt" removeFaultWorld).2).drop 4,
        SafeRead "file.txt" "backup.txt" s = .ok shortData := by
  have h : ∃ s ∈ (statesSince removeFaultWorld
      (SafeWrite shortData "file.txt" "backup.txt" removeFaultWorld).2).drop 4,
      SafeRead "file.txt" "backup.txt" s = .ok testData := ⟨_, List.Mem.head _, by rfl⟩
  refine ⟨h, fun hall => ?_⟩
  obtain ⟨s, hs, h1⟩ := h
  have h2 := hall s hs
  rw [h1] at h2
  exact absurd (Except.ok.inj h2) (by decide)

/-- C7, amended (previous file retained).  For distinct paths, when the primary path holds
the encoded record of `old` before `SafeWrite new file backupFile` starts: in each of the
states after the first four steps (create, header write, payload write, close; fewer if a
step fails) the primary path is unchanged and `SafeRead` returns `old`; in each later state
(after the removal step and after the rename step) either the primary path is still
unchanged and `SafeRead` returns `old`, or the primary path is gone or replaced, the
complete encoded record of `new` is at one of the two paths and `SafeRead` returns `new`;
and when the removal did not fail, `SafeRead` returns `new` in every later state. -/
theorem SafeWrite_previous_retained (old new : Bytes) (file backupFile : Path) (w : World)
    (hne : file ≠ backupFile) (hold : w.files file = some (.file (encodedRecord old))) :
    (∀ s ∈ (statesSince w (SafeWrite new file backupFile w).2).take 4,
        s file = w.files file ∧ SafeRead file backupFile s = .ok old) ∧
      (∀ s ∈ (statesSince w (SafeWrite new file backupFile w).2).drop 4,
        (s file = w.files file ∧ SafeRead file backupFile s = .ok old) ∨
          ((s backupFile = some (.file (encodedRecord new)) ∨
              s file = some (.file (encodedRecord new))) ∧
            SafeRead file backupFile s = .ok new)) ∧
      ((∀ e, (Call.remove file, e) ∉ failedSince w (SafeWrite new file backupFile w).2) →
        ∀ s ∈ (statesSince w (SafeWrite new file backupFile w).2).drop 4,
          SafeRead file backupFile s = .ok new) := by
  have hne2 : backupFile ≠ file := fun h => hne h.symm
  have hP := fun content => SafeRead_put_backup hne hold content
  rcases SafeWrite_run new file backupFile w with
    ⟨e1, -, -, h3⟩ | ⟨e1, k, ec, -, -, h3⟩ | ⟨e1, k, ec, -, -, h3⟩ |
    ⟨ec, er, F4, r, F5, hF4, hF5, -, -, h3⟩
  · simp only [statesSince, failedSince, h3, List.drop_left]
    refine ⟨?_, by simp, by simp⟩
    intro s hs
    simp at hs
    subst hs
    exact ⟨rfl, SafeRead_of_read_ok (read_encodedRecord hold)⟩
  · simp only [statesSince, failedSince, h3, List.drop_left]
    refine ⟨?_, by simp, by simp⟩
    intro s hs
    simp at hs
    rcases hs with rfl | rfl | rfl <;> exact hP _
  · simp only [statesSince, failedSince, h3, List.drop_left]
    refine ⟨?_, by simp, by simp⟩
    intro s hs
    simp at hs
    rcases hs with rfl | rfl | rfl | rfl <;> exact hP _
  · simp only [statesSince, failedSince, h3, List.drop_left]
    have hrem : SafeRead file backupFile
        (del (put w.files backupFile (encodedRecord new)) file) = .ok new :=
      SafeRead_removed _ _ hne
    have hren : ∀ fs : FS, SafeRead file backupFile (put fs file (encodedRecord new)) = .ok new :=
      fun fs => SafeRead_renamed fs _ _ _
    refine ⟨?_, ?_, ?_⟩
    · intro s hs
      simp at hs
      rcases hs with rfl | rfl | rfl | rfl <;> exact hP _
    · intro s hs
      simp at hs
      have h4 : (F4 file = w.files file ∧ SafeRead file backupFile F4 = .ok old) ∨
          ((F4 backupFile = some (.file (encodedRecord new)) ∨
              F4 file = some (.file (encodedRecord new))) ∧
            SafeRead file backupFile F4 = .ok new) := by
        rcases hF4 with ⟨-, rfl⟩ | ⟨-, rfl⟩
        · exact Or.inl (hP _)
        · exact Or.inr ⟨Or.inl (by simp [hne2]), hrem⟩
      rcases hs with rfl | rfl
      · exact h4
      · rcases hF5 with ⟨-, rfl⟩ | ⟨-, -, rfl⟩
        · exact h4
        · exact Or.inr ⟨Or.inr (by simp), hren _⟩
    · intro hrm s hs
      simp at hs
      have her : er = none := by
        cases er with
        | none => rfl
        | some e =>
          exfalso
          apply hrm e
          cases ec <;> cases r <;> simp
      have h4 : SafeRead file backupFile F4 = .ok new := by
        rcases hF4 with ⟨⟨e, he⟩, -⟩ | ⟨-, rfl⟩
        · rw [her] at he; simp at he
        · exact hrem
      rcases hs with rfl | rfl
      · exact h4
      · rcases hF5 with ⟨-, rfl⟩ | ⟨-, -, rfl⟩
        · exact h4
        · exact hren _

/-- Witness of C7: a run without interference over the record of `"test"`; the state
after the removal of the primary reads the new `"Data"`. -/
theorem SafeWrite_previous_retained_witness :
    SafeRead "file.txt" "backup.txt"
      ((statesSince (World.mk (primaryOnly (encodedRecord testData)) [] [])
          (SafeWrite shortData "file.txt" "backup.txt"
            (World.mk (primaryOnly (encodedRecord testData)) [] [])).2).getD 4
        (fun _ => none)) = .ok shortData :=
  (SafeWrite_previous_retained testData shortData "file.txt" "backup.txt"
    (World.mk (primaryOnly (encodedRecord testData)) [] []) (by decide) (by rfl)).2.2
    (fun _ h => List.not_mem_nil _ h) _ (List.Mem.head _)

/-! ## Decoding an encoded text -/

theorem Base64.digit_mod (v : Nat) : Base64.digit (v % 64) = Base64.digit v := by
  simp [Base64.digit]

theorem Base64.value_digit (v : Nat) : Base64.value (Base64.digit v) = some (v % 64) := by
  have h : ∀ i : Fin 64, Base64.value (Base64.digit i.val) = some i.val := by decide
  have := h ⟨v % 64, Nat.mod_lt _ (by decide)⟩
  simpa [Base64.digit_mod] using this

theorem Base64.digit_not_skipped (v : Nat) : ¬ (Base64.digit v = 10 ∨ Base64.digit v = 13) := by
  have h : ∀ i : Fin 64, ¬ (Base64.digit i.val = 10 ∨ Base64.digit i.val = 13) := by decide
  have := h ⟨v % 64, Nat.mod_lt _ (by decide)⟩
  simpa [Base64.digit_mod] using this

theorem Base64.values_digit (v : Nat) (s : Bytes) :
    Base64.values (Base64.digit v :: s) = (Base64.values s).map (fun vs => v % 64 :: vs) := by
  simp only [Base64.values, if_neg (Base64.digit_not_skipped v), Base64.value_digit]

theorem byte_eq {n : Nat} {a : Byte} (h : n % 256 = a.val) : byte n = a :=
  Fin.ext h

theorem Base64.decode_encode_aux :
    ∀ (n : Nat) (src : Bytes), src.length ≤ n →
      ∃ vs, Base64.values (Base64.EncodeToString src) = some vs ∧
        Base64.decodeValues vs = some src
  | 0, src, h => by
    have : src = [] := List.length_eq_zero.mp (Nat.le_zero.mp h)
    subst this
    exact ⟨[], by simp [Base64.EncodeToString, Base64.values], by simp [Base64.decodeValues]⟩
  | n + 1, [], _ =>
    ⟨[], by simp [Base64.EncodeToString, Base64.values], by simp [Base64.decodeValues]⟩
  | n + 1, [a], _ => by
    have hv : Base64.values (Base64.EncodeToString [a]) =
        some [(a.val * 65536) >>> 18 % 64, (a.val * 65536) >>> 12 % 64] := by
      rw [Base64.EncodeToString, Base64.values_digit, Base64.values_digit]
      rfl
    refine ⟨_, hv, ?_⟩
    have ha := a.isLt
    simp only [Base64.decodeValues, Option.some.injEq, List.cons.injEq, and_true,
      Nat.shiftRight_eq_div_pow]
    exact byte_eq (by omega)
  | n + 1, [a, b], _ => by
    have hv : Base64.values (Base64.EncodeToString [a, b]) =
        some [(a.val * 65536 + b.val * 256) >>> 18 % 64,
          (a.val * 65536 + b.val * 256) >>> 12 % 64,
          (a.val * 65536 + b.val * 256) >>> 6 % 64] := by
      rw [Base64.EncodeToString, Base64.values_digit, Base64.values_digit,
        Base64.values_digit]
      rfl
    refine ⟨_, hv, ?_⟩
    have ha := a.isLt
    have hb := b.isLt
    simp only [Base64.decodeValues, Option.some.injEq, List.cons.injEq, and_true,
      Nat.shiftRight_eq_div_pow]
    exact ⟨byte_eq (by omega), byte_eq (by omega)⟩
  | n + 1, a :: b :: c :: rest, h => by
    obtain ⟨vs, h1, h2⟩ := Base64.decode_encode_aux n rest (by simp at h; omega)
    have hv : Base64.values (Base64.EncodeToString (a :: b :: c :: rest)) =
        some ((a.val * 65536 + b.val * 256 + c.val) >>> 18 % 64 ::
          (a.val * 65536 + b.val * 256 + c.val) >>> 12 % 64 ::
          (a.val * 65536 + b.val * 256 + c.val) >>> 6 % 64 ::
          (a.val * 65536 + b.val * 256 + c.val) % 64 :: vs) := by
      rw [Base64.EncodeToString, Base64.values_digit, Base64.values_digit,
        Base64.values_digit, Base64.values_digit, h1]
      rfl
    refine ⟨_, hv, ?_⟩
    have ha := a.isLt
    have hb := b.isLt
    have hc := c.isLt
    simp only [Base64.decodeValues, h2, Option.map_some', Option.some.injEq, List.cons.injEq,
      and_true, Nat.shiftRight_eq_div_pow]
    exact ⟨byte_eq (by omega), byte_eq (by omega), byte_eq (by omega)⟩

/-- Decoding the encoding of a byte sequence gives the sequence back. -/
theorem Base64.DecodeString_EncodeToString (src : Bytes) :
    Base64.DecodeString (Base64.EncodeToString src) = some src := by
  obtain ⟨vs, h1, h2⟩ := Base64.decode_encode_aux src.length src (le_refl _)
  simp [Base64.DecodeString, h1, h2]

/-! ## Header length and checksum text -/

/-- C11 (fixed header length).  For every payload the header `SafeWrite` writes,
`"DataHash:"` (9 bytes) followed by the base64url text without padding of the 32-byte
SHA-256 digest (43 bytes) and `";"` (1 byte), is exactly 53 bytes, whatever the payload and
its length; the record is 53 bytes longer than the payload and the payload starts at offset
53; a file left by a successful `SafeWrite` has these properties and the reader, which cuts
at 53, returns the payload. -/
theorem header_length_fixed (data : Bytes) :
    (dataHashMarker ++ Base64.EncodeToString (Sha256.sum data) ++ semicolon).length = 53 ∧
      dataHashMarker.length = 9 ∧ (Sha256.sum data).length = 32 ∧
      (Base64.EncodeToString (Sha256.sum data)).length = 43 ∧ semicolon.length = 1 ∧
      (∀ other : Bytes, (header other).length = (header data).length) ∧
      (encodedRecord data).length = 53 + data.length ∧
      (encodedRecord data).drop 53 = data ∧
      ∀ (file backupFile : Path) (w : World), file ≠ backupFile →
        (SafeWrite data file backupFile w).1 = none →
        ∃ content, (SafeWrite data file backupFile w).2.files file = some (.file content) ∧
          content.length = 53 + data.length ∧ content.take 53 = header data ∧
          content.drop 53 = data ∧
          read (SafeWrite data file backupFile w).2.files file = .ok (content.drop 53) := by
  have hE : (Base64.EncodeToString (Sha256.sum data)).length = 43 := by
    simp [Base64.length_EncodeToString _ _ (le_refl _), Sha256.length_sum]
  obtain ⟨p1, -, -, -, p5⟩ := encodedRecord_parts data
  refine ⟨length_header data, rfl, Sha256.length_sum data, hE, rfl,
    fun other => by rw [length_header, length_header], p1, p5, ?_⟩
  intro file backupFile w hne hok
  have hs := (SafeWrite_success hne hok).1
  refine ⟨encodedRecord data, hs, p1, ?_, p5, ?_⟩
  · exact List.take_left' (length_header data)
  · rw [p5]; exact read_encodedRecord hs

/-- The counterexample to C12: in the 53 bytes
`"DataHash:47DEQpj8HBSa-_TImW-5JCeuQeRkm5NMpJWZG3hSuFV;"` the marker and the terminator are in
place and the 43 checksum characters decode to the SHA-256 of the (empty) rest, yet the
validated read fails with "Input file hash does not match". -/
theorem noncanonical_checksum_rejected :
    53 ≤ nonCanonicalEmptyRecord.length ∧
      nonCanonicalEmptyRecord.take 9 = dataHashMarker ∧
      nonCanonicalEmptyRecord[52]? = some 59 ∧
      Base64.DecodeString ((nonCanonicalEmptyRecord.take 52).drop 9)
        = some (Sha256.sum (nonCanonicalEmptyRecord.drop 53)) ∧
      read (primaryOnly nonCanonicalEmptyRecord) "file.txt" = .error ChecksumMismatch :=
  ⟨by decide, by decide, by decide, by decide, by rfl⟩

/-- C12, amended (checksum check on the encoded text).  For a readable file of at least 53
bytes that starts with `"DataHash:"` and has `;` at offset 52, the validated read does not
decode: it fails with `ChecksumMismatch` exactly when the 43 characters `data[9:52]` differ
from the base64url text without padding of SHA-256(`data[53:]`), and succeeds with payload
`data[53:]` exactly when they are equal.  Hence it fails with `ChecksumMismatch` whenever
the characters do not decode to SHA-256(`data[53:]`), and on success they do decode to
it. -/
theorem read_checksum_check (fs : FS) (file : Path) (data : Bytes)
    (h : fs file = some (.file data)) (hlen : 53 ≤ data.length)
    (hmark : data.take 9 = dataHashMarker) (hsemi : data[52]? = some 59) :
    (read fs file = .error ChecksumMismatch ↔
        (data.take 52).drop 9 ≠ Base64.EncodeToString (Sha256.sum (data.drop 53))) ∧
      (read fs file = .ok (data.drop 53) ↔
        (data.take 52).drop 9 = Base64.EncodeToString (Sha256.sum (data.drop 53))) ∧
      (Base64.DecodeString ((data.take 52).drop 9) ≠ some (Sha256.sum (data.drop 53)) →
        read fs file = .error ChecksumMismatch) ∧
      (read fs file = .ok (data.drop 53) →
        Base64.DecodeString ((data.take 52).drop 9) = some (Sha256.sum (data.drop 53))) := by
  have hr : read fs file =
      if (data.take 52).drop 9 ≠ Base64.EncodeToString (Sha256.sum (data.drop 53)) then
        .error ChecksumMismatch
      else .ok (data.drop 53) := by
    rw [read_file h, if_neg (by omega), if_neg (by simp [hmark]), if_neg (by simp [hsemi])]
  by_cases heq : (data.take 52).drop 9 = Base64.EncodeToString (Sha256.sum (data.drop 53))
  · have hok : read fs file = .ok (data.drop 53) := by rw [hr, if_neg (by simp [heq])]
    have hdec : Base64.DecodeString ((data.take 52).drop 9)
        = some (Sha256.sum (data.drop 53)) := by
      rw [heq, Base64.DecodeString_EncodeToString]
    refine ⟨?_, ?_, fun hne => absurd hdec hne, fun _ => hdec⟩
    · rw [hok]; simp [heq]
    · rw [hok]; simp [heq]
  · have herr : read fs file = .error ChecksumMismatch := by rw [hr, if_pos heq]
    refine ⟨?_, ?_, fun _ => herr, fun hok => ?_⟩
    · rw [herr]; simp [heq]
    · rw [herr]; simp [heq]
    · rw [herr] at hok; simp at hok

/-- Witness of C12: the record of `"test"` passes the checksum check. -/
theorem read_checksum_check_witness :
    read (primaryOnly (encodedRecord testData)) "file.txt"
        = .ok ((encodedRecord testData).drop 53) ↔
      ((encodedRecord testData).take 52).drop 9
        = Base64.EncodeToString (Sha256.sum ((encodedRecord testData).drop 53)) :=
  (read_checksum_check (primaryOnly (encodedRecord testData)) "file.txt"
    (encodedRecord testData) (by rfl) (by decide) (by decide) (by decide)).2.1

/-! ## Failures of the rename, error propagation -/

/-- The counterexample to C13: the primary path holds the record of `"test"`, the removal of
the primary fails and then the rename fails.  `SafeWrite` returns the rename error, but the
primary is still there and `SafeRead` returns `"test"`, not the `"Data"` just written. -/
theorem failed_rename_after_failed_remove :
    (SafeWrite shortData "file.txt" "backup.txt" removeRenameFaultWorld).1
        = some (.sys "backup.txt" 13) ∧
      (Call.rename "backup.txt" "file.txt", Error.sys "backup.txt" 13) ∈
        failedSince removeRenameFaultWorld
          (SafeWrite shortData "file.txt" "backup.txt" removeRenameFaultWorld).2 ∧
      (SafeWrite shortData "file.txt" "backup.txt" removeRenameFaultWorld).2.files "file.txt"
        = some (.file (encodedRecord testData)) ∧
      SafeRead "file.txt" "backup.txt"
        (SafeWrite shortData "file.txt" "backup.txt" removeRenameFaultWorld).2.files
        = .ok testData ∧
      testData ≠ shortData :=
  ⟨by decide, by decide, by rfl, by rfl, by decide⟩

/-- C13, amended (rename failure window).  For distinct paths, when `SafeWrite data file
backupFile` fails at the final rename with `e`: it returns `e`; the backup path holds the
complete encoded record of `data`; the primary path is either empty or exactly as before
the call; it is empty when the removal did not fail and when there was no primary; and
whenever it is empty, `SafeRead` returns `data` and no error. -/
theorem SafeWrite_rename_failure (data : Bytes) (file backupFile : Path) (w : World)
    (e : Error) (hne : file ≠ backupFile)
    (hrn : (Call.rename backupFile file, e) ∈
      failedSince w (SafeWrite data file backupFile w).2) :
    (SafeWrite data file backupFile w).1 = some e ∧
      (SafeWrite data file backupFile w).2.files backupFile
        = some (.file (encodedRecord data)) ∧
      ((SafeWrite data file backupFile w).2.files file = none ∨
        (SafeWrite data file backupFile w).2.files file = w.files file) ∧
      ((∀ e2, (Call.remove file, e2) ∉ failedSince w (SafeWrite data file backupFile w).2) →
        (SafeWrite data file backupFile w).2.files file = none) ∧
      (w.files file = none → (SafeWrite data file backupFile w).2.files file = none) ∧
      ((SafeWrite data file backupFile w).2.files file = none →
        SafeRead file backupFile (SafeWrite data file backupFile w).2.files = .ok data) := by
  have hne2 : backupFile ≠ file := fun h => hne h.symm
  rcases SafeWrite_run data file backupFile w with
    ⟨e1, h1, h2, h3⟩ | ⟨e1, k, ec, h1, h2, h3⟩ | ⟨e1, k, ec, h1, h2, h3⟩ |
    ⟨ec, er, F4, r, F5, hF4, hF5, h1, h2, h3⟩
  · simp only [failedSince, h3, List.drop_left] at hrn
    simp at hrn
  · simp only [failedSince, h3, List.drop_left] at hrn
    cases ec <;> simp at hrn
  · simp only [failedSince, h3, List.drop_left] at hrn
    cases ec <;> simp at hrn
  · simp only [failedSince, h3, List.drop_left] at hrn ⊢
    have hr : r = some e := by
      cases ec <;> cases er <;> cases r <;> simp at hrn <;> simp [hrn]
    subst hr
    have h54 : F5 = F4 := by
      rcases hF5 with ⟨-, h⟩ | ⟨h, -⟩
      · exact h
      · simp at h
    subst h54
    rw [h1, h2]
    have hb : F5 backupFile = some (.file (encodedRecord data)) := by
      rcases hF4 with ⟨-, rfl⟩ | ⟨-, rfl⟩ <;> simp [hne2]
    refine ⟨rfl, hb, ?_, ?_, ?_, ?_⟩
    · rcases hF4 with ⟨-, rfl⟩ | ⟨-, rfl⟩
      · exact Or.inr (by simp [hne])
      · exact Or.inl (by simp)
    · intro hrm
      rcases hF4 with ⟨⟨e2, rfl⟩, -⟩ | ⟨-, rfl⟩
      · exfalso
        apply hrm e2
        cases ec <;> simp
      · simp
    · intro hnone
      rcases hF4 with ⟨-, rfl⟩ | ⟨-, rfl⟩
      · simp [hne, hnone]
      · simp
    · intro hnone
      have hp : read F5 file = .error (.sys file ENOENT) := by simp [read, ReadFile, hnone]
      rw [SafeRead_of_read_error hp, read_encodedRecord hb]

/-- Witness of C13: nothing at the primary path, the rename fails; the record just written
is read from the backup path. -/
theorem SafeWrite_rename_failure_witness :
    SafeRead "file.txt" "backup.txt"
      (SafeWrite shortData "file.txt" "backup.txt" renameFaultWorld).2.files = .ok shortData :=
  (SafeWrite_rename_failure shortData "file.txt" "backup.txt" renameFaultWorld
    (.sys "backup.txt" 13) (by decide) (by decide)).2.2.2.2.2 (by rfl)

/-- C14 (error propagation of the write).  `SafeWrite` returns the error `e` if and only if
the creation of the backup file, a write into it (header or payload) or the rename of the
backup onto the primary failed with `e`; it returns no error if and only if none of these
failed; a failed removal of the primary (and a failed close) changes nothing in that: after
it `SafeWrite` returns no error or the error of the rename.  Example: the removal fails
with error number 13 and `SafeWrite` returns no error. -/
theorem SafeWrite_error_propagation (data : Bytes) (file backupFile : Path) (w : World) :
    (∀ e, (SafeWrite data file backupFile w).1 = some e ↔
        (Call.create backupFile, e) ∈ failedSince w (SafeWrite data file backupFile w).2 ∨
        (Call.write backupFile, e) ∈ failedSince w (SafeWrite data file backupFile w).2 ∨
        (Call.rename backupFile file, e) ∈
          failedSince w (SafeWrite data file backupFile w).2) ∧
      ((SafeWrite data file backupFile w).1 = none ↔
        ∀ e, (Call.create backupFile, e) ∉ failedSince w (SafeWrite data file backupFile w).2 ∧
          (Call.write backupFile, e) ∉ failedSince w (SafeWrite data file backupFile w).2 ∧
          (Call.rename backupFile file, e) ∉
            failedSince w (SafeWrite data file backupFile w).2) ∧
      (∀ e, (Call.remove file, e) ∈ failedSince w (SafeWrite data file backupFile w).2 →
        (SafeWrite data file backupFile w).1 = none ∨
          ∃ e2, (SafeWrite data file backupFile w).1 = some e2 ∧
            (Call.rename backupFile file, e2) ∈
              failedSince w (SafeWrite data file backupFile w).2) ∧
      ((Call.remove "file.txt", Error.sys "file.txt" 13) ∈ failedSince removeFaultWorld
          (SafeWrite shortData "file.txt" "backup.txt" removeFaultWorld).2 ∧
        (SafeWrite shortData "file.txt" "backup.txt" removeFaultWorld).1 = none) := by
  have key : ∀ e, (SafeWrite data file backupFile w).1 = some e ↔
      (Call.create backupFile, e) ∈ failedSince w (SafeWrite data file backupFile w).2 ∨
      (Call.write backupFile, e) ∈ failedSince w (SafeWrite data file backupFile w).2 ∨
      (Call.rename backupFile file, e) ∈
        failedSince w (SafeWrite data file backupFile w).2 := by
    intro e
    rcases SafeWrite_run data file backupFile w with
      ⟨e1, h1, h2, h3⟩ | ⟨e1, k, ec, h1, h2, h3⟩ | ⟨e1, k, ec, h1, h2, h3⟩ |
      ⟨ec, er, F4, r, F5, hF4, hF5, h1, h2, h3⟩
    · simp only [failedSince, h3, List.drop_left, h1]
      simp [eq_comm]
    · simp only [failedSince, h3, List.drop_left, h1]
      cases ec <;> simp [eq_comm]
    · simp only [failedSince, h3, List.drop_left, h1]
      cases ec <;> simp [eq_comm]
    · simp only [failedSince, h3, List.drop_left, h1]
      cases ec <;> cases er <;> cases r <;> simp [eq_comm]
  refine ⟨key, ?_, ?_, by decide, by decide⟩
  · constructor
    · intro hnone e
      have := key e
      rw [hnone] at this
      simp only [false_iff, not_or, reduceCtorEq] at this
      exact this
    · intro hall
      cases hres : (SafeWrite data file backupFile w).1 with
      | none => rfl
      | some e =>
        exfalso
        have := (key e).mp hres
        have h3 := hall e
        tauto
  · intro e hrm
    cases hres : (SafeWrite data file backupFile w).1 with
    | none => exact Or.inl rfl
    | some e2 =>
      refine Or.inr ⟨e2, rfl, ?_⟩
      rcases SafeWrite_run data file backupFile w with
        ⟨e1, h1, h2, h3⟩ | ⟨e1, k, ec, h1, h2, h3⟩ | ⟨e1, k, ec, h1, h2, h3⟩ |
        ⟨ec, er, F4, r, F5, hF4, hF5, h1, h2, h3⟩
      · simp only [failedSince, h3, List.drop_left] at hrm
        simp at hrm
      · simp only [failedSince, h3, List.drop_left] at hrm
        cases ec <;> simp at hrm
      · simp only [failedSince, h3, List.drop_left] at hrm
        cases ec <;> simp at hrm
      · rw [h1] at hres
        subst hres
        simp only [failedSince, h3, List.drop_left]
        cases ec <;> cases er <;> simp

/-! ## One path for both slots, repeated writes -/

/-- C15 (same path for both slots).  When `file` and `backupFile` are the same path and
the creation, the two writes and the removal do not fail, `SafeWrite` never succeeds: the
path holds in turn the empty file (the old record is truncated), the header, the record, the
record, nothing (the removal deletes the record just written) and nothing (the rename of
the missing source fails); the error of the rename is returned, nothing is left at the path
and a following `SafeRead` fails with the not-found error, whatever was stored before. -/
theorem SafeWrite_same_path (data : Bytes) (file : Path) (w : World)
    (hcr : ∀ e, (Call.create file, e) ∉ failedSince w (SafeWrite data file file w).2)
    (hwr : ∀ e, (Call.write file, e) ∉ failedSince w (SafeWrite data file file w).2)
    (hrm : ∀ e, (Call.remove file, e) ∉ failedSince w (SafeWrite data file file w).2) :
    (∃ e, (SafeWrite data file file w).1 = some e ∧
        (Call.rename file file, e) ∈ failedSince w (SafeWrite data file file w).2) ∧
      (statesSince w (SafeWrite data file file w).2).map (fun s => s file) =
        [some (.file []), some (.file (header data)), some (.file (encodedRecord data)),
          some (.file (encodedRecord data)), none, none] ∧
      (SafeWrite data file file w).2.files file = none ∧
      SafeRead file file (SafeWrite data file file w).2.files = .error (.sys file ENOENT) := by
  rcases SafeWrite_run data file file w with
    ⟨e1, h1, h2, h3⟩ | ⟨e1, k, ec, h1, h2, h3⟩ | ⟨e1, k, ec, h1, h2, h3⟩ |
    ⟨ec, er, F4, r, F5, hF4, hF5, h1, h2, h3⟩
  · exfalso
    apply hcr e1
    simp only [failedSince, h3, List.drop_left]
    simp
  · exfalso
    apply hwr e1
    simp only [failedSince, h3, List.drop_left]
    cases ec <;> simp
  · exfalso
    apply hwr e1
    simp only [failedSince, h3, List.drop_left]
    cases ec <;> simp
  · have her : er = none := by
      cases er with
      | none => rfl
      | some e2 =>
        exfalso
        apply hrm e2
        simp only [failedSince, h3, List.drop_left]
        cases ec <;> cases r <;> simp
    subst her
    have h4 : F4 = del (put w.files file (encodedRecord data)) file := by
      rcases hF4 with ⟨⟨e2, he2⟩, -⟩ | ⟨-, h⟩
      · simp at he2
      · exact h
    subst h4
    have hr : ∃ e, r = some e ∧ F5 = del (put w.files file (encodedRecord data)) file := by
      rcases hF5 with ⟨⟨e, he⟩, h⟩ | ⟨-, h, -⟩
      · exact ⟨e, he, h⟩
      · simp at h
    obtain ⟨e, rfl, rfl⟩ := hr
    have hnone : (SafeWrite data file file w).2.files file = none := by rw [h2]; simp
    refine ⟨⟨e, h1, ?_⟩, ?_, hnone, ?_⟩
    · simp only [failedSince, h3, List.drop_left]
      cases ec <;> simp
    · simp only [statesSince, h3, List.drop_left]
      simp
    · have hp : read (SafeWrite data file file w).2.files file = .error (.sys file ENOENT) := by
        simp [read, ReadFile, hnone]
      rw [SafeRead_of_read_error hp, hp]

/-- Witness of C15: the record of `"test"` is stored at `"file.txt"`, and `"Data"` is
written with `"file.txt"` as both paths; nothing is left. -/
theorem SafeWrite_same_path_witness :
    (SafeWrite shortData "file.txt" "file.txt" testWorld).2.files "file.txt" = none ∧
      SafeRead "file.txt" "file.txt" (SafeWrite shortData "file.txt" "file.txt" testWorld).2.files
        = .error (.sys "file.txt" ENOENT) := by
  have hF : failedSince testWorld (SafeWrite shortData "file.txt" "file.txt" testWorld).2
      = [(Call.rename "file.txt" "file.txt", Error.sys "file.txt" ENOENT)] := by decide
  exact (SafeWrite_same_path shortData "file.txt" testWorld
    (fun e h => by rw [hF] at h; simp at h) (fun e h => by rw [hF] at h; simp at h)
    (fun e h => by rw [hF] at h; simp at h)).2.2

/-- C16 (last write wins).  For distinct paths: when `SafeWrite d1` and then `SafeWrite d2`
both succeed, the file system they leave is, at every path, the one a single successful
`SafeWrite d2` leaves from the same initial file system, and `SafeRead` returns `d2`; so
writing the same data twice leaves the file system that writing it once leaves. -/
theorem SafeWrite_last_write_wins (d1 d2 : Bytes) (file backupFile : Path) (w w2 : World)
    (hne : file ≠ backupFile) (hsame : w2.files = w.files)
    (h1 : (SafeWrite d1 file backupFile w).1 = none)
    (h2 : (SafeWrite d2 file backupFile (SafeWrite d1 file backupFile w).2).1 = none)
    (h3 : (SafeWrite d2 file backupFile w2).1 = none) :
    (SafeWrite d2 file backupFile (SafeWrite d1 file backupFile w).2).2.files
        = (SafeWrite d2 file backupFile w2).2.files ∧
      SafeRead file backupFile
        (SafeWrite d2 file backupFile (SafeWrite d1 file backupFile w).2).2.files = .ok d2 ∧
      (d1 = d2 →
        (SafeWrite d2 file backupFile (SafeWrite d1 file backupFile w).2).2.files
          = (SafeWrite d1 file backupFile w).2.files) := by
  obtain ⟨a1, a2, a3⟩ := SafeWrite_success hne h1
  obtain ⟨b1, b2, b3⟩ := SafeWrite_success hne h2
  obtain ⟨c1, c2, c3⟩ := SafeWrite_success hne h3
  refine ⟨?_, SafeRead_of_read_ok (read_encodedRecord b1), ?_⟩
  · funext q
    by_cases hq1 : q = file
    · subst hq1; rw [b1, c1]
    · by_cases hq2 : q = backupFile
      · subst hq2; rw [b2, c2]
      · rw [b3 q hq1 hq2, a3 q hq1 hq2, c3 q hq1 hq2, hsame]
  · intro hd
    subst hd
    funext q
    by_cases hq1 : q = file
    · subst hq1; rw [b1, a1]
    · by_cases hq2 : q = backupFile
      · subst hq2; rw [b2, a2]
      · rw [b3 q hq1 hq2]

/-- Witness of C16: `"test"` and then `"Data"` are written into an empty file system. -/
theorem SafeWrite_last_write_wins_witness :
    SafeRead "file.txt" "backup.txt"
      (SafeWrite shortData "file.txt" "backup.txt"
        (SafeWrite testData "file.txt" "backup.txt" emptyWorld).2).2.files = .ok shortData :=
  (SafeWrite_last_write_wins testData shortData "file.txt" "backup.txt" emptyWorld emptyWorld
    (by decide) rfl (by decide) (by decide) (by decide)).2.1

end Iohelper
